import Mathlib

/-!
Verification of the classification engine of the complaint-management backend
(`trained_models/standalone_ml.py`).  The Python class `StandaloneMLService` is
shallowly embedded below: its pure text-processing methods become Lean
functions over `String`/`List Char`, Python dictionaries (which preserve
insertion order) become association lists, and Python floats — which in this
code only ever hold finite sums of `2` and `0.5` — become rationals.

The repository ships no `cmsdata.csv`, so the running service always falls
back to the hand-authored default pattern tables (`setup_default_patterns`);
the corpus-loading path is nevertheless embedded in full because several
claims are about it.
-/

namespace CMS

/-- ASCII whitespace, as matched by the regex class `\s` and by `str.split()`
for ASCII text: space, tab, newline, carriage return, vertical tab, form feed. -/
def isWsChar (c : Char) : Bool :=
  c = ' ' || c = '\t' || c = '\n' || c = '\r' || c = Char.ofNat 11 || c = Char.ofNat 12

/-- Characters kept by the regex `[^a-zA-Z0-9\s]` substitution in
`extract_words` (everything that is neither alphanumeric ASCII nor whitespace
is replaced by a space). -/
def isAsciiAlnum (c : Char) : Bool :=
  ('a' ≤ c && c ≤ 'z') || ('A' ≤ c && c ≤ 'Z') || ('0' ≤ c && c ≤ '9')

/-- ASCII lower-casing of one character, as `str.lower()` acts on ASCII input. -/
def lowerChar (c : Char) : Char :=
  if 'A' ≤ c && c ≤ 'Z' then Char.ofNat (c.toNat + 32) else c

/-- Embedding of Python `text.lower()` (restricted to its ASCII behaviour). -/
def lowerStr (s : String) : String :=
  ⟨s.data.map lowerChar⟩

/-- Boolean list-prefix test, auxiliary for the substring test below. -/
def isPrefixL : List Char → List Char → Bool
  | [], _ => true
  | _ :: _, [] => false
  | a :: as, b :: bs => a = b && isPrefixL as bs

/-- Embedding of Python `needle in haystack` on strings: contiguous-substring
presence (the empty needle is contained in everything). -/
def containsSubL (needle : List Char) : List Char → Bool
  | [] => needle.isEmpty
  | c :: t => isPrefixL needle (c :: t) || containsSubL needle t

/-- String form of `containsSubL`: Python `needle in hay`. -/
def inStr (needle hay : String) : Bool :=
  containsSubL needle.data hay.data

/-- Embedding of the Python idiom `any(w in text for w in ws)` used throughout
the rule and context stages. -/
def anyIn (ws : List String) (text : String) : Bool :=
  ws.any (fun w => inStr w text)

/-- Whitespace splitter, accumulator form: `splitWsGo l cur` processes the
remaining characters `l` with the (reversed) current partial token `cur`.
Models Python `str.split()` with no arguments: runs of whitespace separate
tokens and produce no empty tokens. -/
def splitWsGo : List Char → List Char → List (List Char)
  | [], cur => if cur.isEmpty then [] else [cur.reverse]
  | c :: t, cur =>
    if isWsChar c then
      if cur.isEmpty then splitWsGo t [] else cur.reverse :: splitWsGo t []
    else
      splitWsGo t (c :: cur)

/-- Embedding of Python `text.split()` (no separator argument). -/
def splitWs (l : List Char) : List (List Char) :=
  splitWsGo l []

/-- Embedding of `StandaloneMLService.extract_words`:
`text = re.sub(r'[^a-zA-Z0-9\s]', ' ', text.lower())` followed by
`[word for word in text.split() if len(word) > 2]`. -/
def extract_words (text : String) : List String :=
  let cleaned := (lowerStr text).data.map (fun c => if isAsciiAlnum c || isWsChar c then c else ' ')
  ((splitWs cleaned).filter (fun w => decide (2 < w.length))).map (fun w => (⟨w⟩ : String))

/-!  Score maps.  A Python `dict` with `str` keys and numeric values, written
to with `d[k] = v` and read with `d.get(k, 0)`, is embedded as an association
list that preserves insertion order: updating an existing key keeps its
position, a fresh key is appended at the end — exactly Python's semantics. -/

/-- Association list standing for an insertion-ordered Python dict of scores. -/
abbrev ScoreMap := List (String × ℚ)

/-- Keys of a score map, in insertion order (Python dict iteration order). -/
def scoreKeys (m : ScoreMap) : List String :=
  m.map (fun kv => kv.1)

/-- Embedding of `d.get(k, 0)`. -/
def getScore (m : ScoreMap) (k : String) : ℚ :=
  match m.find? (fun kv => kv.1 == k) with
  | some kv => kv.2
  | none => 0

/-- Embedding of `d[k] = v` on a dict with (as everywhere in this program)
pairwise-distinct keys: replace in place if present, append otherwise. -/
def setScore (m : ScoreMap) (k : String) (v : ℚ) : ScoreMap :=
  if m.any (fun kv => kv.1 == k) then
    m.map (fun kv => if kv.1 == k then (k, v) else kv)
  else
    m ++ [(k, v)]

/-- Embedding of `d[k] = d.get(k, 0) + v`, the shape of every context boost. -/
def bumpScore (m : ScoreMap) (k : String) (v : ℚ) : ScoreMap :=
  setScore m k (getScore m k + v)

/-- One guarded boost `if cond: d[k] = d.get(k, 0) + v`. -/
def condBump (c : Bool) (m : ScoreMap) (k : String) (v : ℚ) : ScoreMap :=
  if c then bumpScore m k v else m

/-- A sequence of guarded boosts, applied in order. -/
def applyBoosts (boosts : List (Bool × String × ℚ)) (scores : ScoreMap) : ScoreMap :=
  boosts.foldl (fun m b => condBump b.1 m b.2.1 b.2.2) scores

/-- Python `max` scan: fold keeping the first element whose value no later
element strictly exceeds. -/
def argmaxGo (best : String × ℚ) : ScoreMap → String × ℚ
  | [] => best
  | kv :: rest => argmaxGo (if kv.2 > best.2 then kv else best) rest

/-- Embedding of `max(d, key=d.get)` paired with `max(d.values())`: for a
nonempty dict, the first key attaining the maximal value, together with that
value.  `none` on the empty dict, where Python `max` raises `ValueError`. -/
def pyMax : ScoreMap → Option (String × ℚ)
  | [] => none
  | kv :: rest => some (argmaxGo kv rest)

/-- Embedding of `max(d, key=d.get)` alone. -/
def pyMaxKey (m : ScoreMap) : Option String :=
  (pyMax m).map (fun kv => kv.1)

/-- A (query, category, priority) record of the training corpus. -/
structure TrainingSample where
  query : String
  category : String
  priority : String
deriving DecidableEq

/-- The two pattern tables of `StandaloneMLService`: `category_patterns` and
`priority_patterns`, each an insertion-ordered label-to-word-list dict. -/
structure MLService where
  category_patterns : List (String × List String)
  priority_patterns : List (String × List String)
deriving DecidableEq

/-- Embedding of `StandaloneMLService.setup_default_patterns`: the literal
fallback tables installed when no corpus is available. -/
def setup_default_patterns : MLService :=
  { category_patterns := [
      ("Technical", ["login", "password", "portal", "wifi", "internet", "network",
        "computer", "laptop", "software", "email", "lms", "system"]),
      ("Academic", ["grade", "marks", "exam", "attendance", "lecture", "class",
        "assignment", "certificate", "transfer", "timetable", "professor"]),
      ("Hostel/Mess", ["hostel", "room", "mess", "food", "meal", "accommodation",
        "furniture", "allotment", "quality", "dining"]),
      ("Maintenance", ["maintenance", "repair", "broken", "electricity", "water",
        "tap", "elevator", "cleaning", "lighting", "conditioning"])],
    priority_patterns := [
      ("urgent", ["urgent", "emergency", "immediately", "broken", "not", "working", "critical"]),
      ("high", ["important", "soon", "needed", "missing", "exam", "grade", "deteriorated"]),
      ("medium", ["moderate", "normal", "permission", "competition", "week"]),
      ("low", ["later", "minor", "simple", "routine", "cleaning", "dim"])] }

/-- Embedding of `StandaloneMLService.rule_based_classification`: eight
substring-presence rules over the lower-cased text, tried in order; the
`words` argument is received (as in the source) but never used. -/
def rule_based_classification (query_lower : String) (words : List String) :
    Option (String × String) :=
  if anyIn ["water", "tap", "leak", "plumbing", "pipe", "drainage"] query_lower then
    if anyIn ["hostel", "room", "mess"] query_lower then some ("Hostel/Mess", "urgent")
    else some ("Maintenance", "urgent")
  else if anyIn ["electricity", "power", "light", "bulb", "electrical"] query_lower then
    if anyIn ["hostel", "room"] query_lower then some ("Hostel/Mess", "urgent")
    else some ("Maintenance", "high")
  else if anyIn ["food", "meal", "mess", "dining", "kitchen", "quality"] query_lower then
    some ("Hostel/Mess", "high")
  else if anyIn ["room", "furniture", "bed", "chair", "table"] query_lower then
    some ("Hostel/Mess", "medium")
  else if anyIn ["login", "portal", "password", "access"] query_lower then
    some ("Technical", "urgent")
  else if anyIn ["wifi", "internet", "network", "connection"] query_lower then
    some ("Technical", "urgent")
  else if anyIn ["grade", "marks", "exam", "certificate", "attendance"] query_lower then
    some ("Academic", "high")
  else if anyIn ["broken", "repair", "fix", "maintenance", "elevator", "lift"] query_lower then
    some ("Maintenance", "urgent")
  else
    none

/-- Score of one category's pattern list against the extracted words — the
inner loops of step 2 of `classify_user_query`: `+2` for an exact list
membership, and, independently, `+0.5` for every pattern that contains or is
contained in the word. -/
def categoryScore (patterns : List String) (words : List String) : ℚ :=
  words.foldl (fun score word =>
    let s := if word ∈ patterns then score + 2 else score
    patterns.foldl (fun t p =>
      if inStr p word || inStr word p then t + (1 / 2 : ℚ) else t) s) 0

/-- Score of one priority's pattern list:
`sum(2 if word in patterns else 0 for word in words)`. -/
def priorityScore (patterns : List String) (words : List String) : ℚ :=
  words.foldl (fun score word => score + (if word ∈ patterns then (2 : ℚ) else 0)) 0

/-- Embedding of `StandaloneMLService.apply_context_rules`: four guarded
category boosts, each written with `d.get(label, 0)` so it may introduce a
label absent from the table. -/
def apply_context_rules (query_lower : String) (category_scores : ScoreMap) : ScoreMap :=
  applyBoosts [
    (anyIn ["hostel", "room"] query_lower, "Hostel/Mess", 3),
    (anyIn ["broken", "not working", "repair", "fix"] query_lower, "Maintenance", 2),
    (anyIn ["portal", "system", "software", "computer"] query_lower, "Technical", 2),
    (anyIn ["exam", "grade", "class", "lecture"] query_lower, "Academic", 2)] category_scores

/-- Embedding of `StandaloneMLService.apply_priority_context`: six guarded
priority boosts; the last two consult the already-selected category.  The
`words` argument is received (as in the source) but never used. -/
def apply_priority_context (query_lower : String) (words : List String) (category : String)
    (priority_scores : ScoreMap) : ScoreMap :=
  applyBoosts [
    (anyIn ["urgent", "emergency", "immediately", "asap"] query_lower, "urgent", 5),
    (anyIn ["broken", "not working", "damaged"] query_lower, "urgent", 3),
    (anyIn ["important", "needed", "required", "missing"] query_lower, "high", 2),
    (anyIn ["exam", "grade", "certificate"] query_lower, "high", 2),
    (category == "Maintenance" && anyIn ["water", "electricity", "elevator"] query_lower, "urgent", 2),
    (category == "Technical" && anyIn ["login", "portal", "wifi"] query_lower, "urgent", 2)]
    priority_scores

/-- Step 2 for categories: the dict comprehension building `category_scores`
over `self.category_patterns.items()`. -/
def baseCategoryScores (svc : MLService) (words : List String) : ScoreMap :=
  svc.category_patterns.map (fun cp => (cp.1, categoryScore cp.2 words))

/-- Steps 2–3 for categories: scores after `apply_context_rules`. -/
def adjustedCategoryScores (svc : MLService) (query : String) : ScoreMap :=
  apply_context_rules (lowerStr query) (baseCategoryScores svc (extract_words query))

/-- Step 4 category selection:
`max(category_scores, key=category_scores.get) if category_scores else 'Technical'`. -/
def predictedCategory (svc : MLService) (query : String) : String :=
  (pyMaxKey (adjustedCategoryScores svc query)).getD "Technical"

/-- Step 2 for priorities: the loop building `priority_scores`. -/
def basePriorityScores (svc : MLService) (words : List String) : ScoreMap :=
  svc.priority_patterns.map (fun pp => (pp.1, priorityScore pp.2 words))

/-- Steps 2–3 for priorities: scores after `apply_priority_context`, which
receives the category already chosen in step 4. -/
def adjustedPriorityScores (svc : MLService) (query : String) : ScoreMap :=
  apply_priority_context (lowerStr query) (extract_words query) (predictedCategory svc query)
    (basePriorityScores svc (extract_words query))

/-- Embedding of `StandaloneMLService.classify_user_query`.  The result is
`none` exactly where the Python would raise (`max` over an empty
`priority_scores` dict) — unreachable for any service the program builds,
whose priority table is never empty. -/
def classify_user_query (svc : MLService) (query : String) : Option (String × String) :=
  match rule_based_classification (lowerStr query) (extract_words query) with
  | some cp => some cp
  | none =>
    match pyMax (adjustedPriorityScores svc query) with
    | none => none
    | some kv =>
      if kv.2 > 0 then some (predictedCategory svc query, kv.1)
      else some (predictedCategory svc query, "medium")

/-!  Corpus loading (`load_csv_data`) and pattern building (`build_patterns`).
The file contents are modelled as the list of lines `readlines()` produces;
`str.strip()` (which in particular removes the trailing newline of each line)
is embedded explicitly. -/

/-- Strip all leading and trailing characters satisfying `p`
(Python `str.strip` family). -/
def stripL (p : Char → Bool) (l : List Char) : List Char :=
  ((l.dropWhile p).reverse.dropWhile p).reverse

/-- The double-quote character, written by code point. -/
def quoteChar : Char := Char.ofNat 34

/-- Python `line.strip()` (whitespace at both ends). -/
def stripWsEnds (l : List Char) : List Char := stripL isWsChar l

/-- Python `field.strip(chr(34))`: quotes removed at both ends only. -/
def stripQuotes (l : List Char) : List Char := stripL (fun c => c = quoteChar) l

/-- Split at the first occurrence of `sep`, if any. -/
def splitOnceAt (sep : Char) : List Char → Option (List Char × List Char)
  | [] => none
  | c :: t =>
    if c = sep then some ([], t)
    else
      match splitOnceAt sep t with
      | none => none
      | some ab => some (c :: ab.1, ab.2)

/-- Embedding of Python `s.split(chr(44), 2)`: split on at most the first two
commas, so the result has at most three parts and the third keeps any further
commas. -/
def splitCommaMax2 (l : List Char) : List (List Char) :=
  match splitOnceAt ',' l with
  | none => [l]
  | some ar =>
    match splitOnceAt ',' ar.2 with
    | none => [ar.1, ar.2]
    | some br => [ar.1, br.1, br.2]

/-- One iteration of the `load_csv_data` loop body: strip the line, split on
at most two commas, and keep it only when at least three parts result (with
`split(',', 2)` that means exactly three). -/
def parseLine (line : String) : Option TrainingSample :=
  match splitCommaMax2 (stripWsEnds line.data) with
  | [q, c, p] => some ⟨⟨stripQuotes q⟩, ⟨stripQuotes c⟩, ⟨stripQuotes p⟩⟩
  | _ => none

/-- Embedding of `StandaloneMLService.load_csv_data` on the lines of an
existing readable file: skip the header line, then append a sample for every
line that parses. -/
def load_csv_data (lines : List String) : List TrainingSample :=
  (lines.drop 1).foldl (fun acc line =>
    match parseLine line with
    | some s => acc ++ [s]
    | none => acc) []

/-- Embedding of `words[word] = words.get(word, 0) + 1` on an
insertion-ordered dict. -/
def bumpCount (m : List (String × Nat)) (w : String) : List (String × Nat) :=
  if m.any (fun kv => kv.1 == w) then
    m.map (fun kv => if kv.1 == w then (kv.1, kv.2 + 1) else kv)
  else
    m ++ [(w, 1)]

/-- Per-label word-frequency table (`category_words` / `priority_words`). -/
abbrev CountTable := List (String × List (String × Nat))

/-- Embedding of `if label not in table: table[label] = {}`. -/
def ensureLabel (m : CountTable) (k : String) : CountTable :=
  if m.any (fun kv => kv.1 == k) then m else m ++ [(k, [])]

/-- Count every extracted word of one sample under its label. -/
def addWordCounts (m : CountTable) (k : String) (ws : List String) : CountTable :=
  m.map (fun kv => if kv.1 == k then (kv.1, ws.foldl bumpCount kv.2) else kv)

/-- The frequency-accumulation loop of `build_patterns`: one pass over the
training data filling `category_words` and `priority_words`. -/
def countTables (td : List TrainingSample) : CountTable × CountTable :=
  td.foldl (fun acc item =>
    (addWordCounts (ensureLabel acc.1 item.category) item.category (extract_words item.query),
     addWordCounts (ensureLabel acc.2 item.priority) item.priority (extract_words item.query)))
    ([], [])

instance : DecidableRel (fun a b : String × Nat => b.2 ≤ a.2) :=
  fun _ _ => Nat.decLe _ _

/-- Embedding of `sorted(words.items(), key=lambda x: x[1], reverse=True)`:
a stable sort by descending count (insertion sort is stable, like Python's). -/
def sortDesc (l : List (String × Nat)) : List (String × Nat) :=
  List.insertionSort (fun a b => b.2 ≤ a.2) l

/-- Embedding of `sorted(...)[:n]` followed by
`[word for word, count in sorted_words if count > 1]`. -/
def topWords (n : Nat) (counts : List (String × Nat)) : List String :=
  (((sortDesc counts).take n).filter (fun kv => decide (1 < kv.2))).map (fun kv => kv.1)

/-- Embedding of `StandaloneMLService.build_patterns`: defaults when the
training data is empty, otherwise the top-50 (category) / top-30 (priority)
words per label. -/
def build_patterns (td : List TrainingSample) : MLService :=
  if td.isEmpty then setup_default_patterns
  else
    { category_patterns := (countTables td).1.map (fun kv => (kv.1, topWords 50 kv.2)),
      priority_patterns := (countTables td).2.map (fun kv => (kv.1, topWords 30 kv.2)) }

/-- Training data as a function of the corpus file's availability: `none`
stands for a missing or unreadable file (both excepted paths of
`load_csv_data` leave `self.training_data` empty). -/
def corpusTrainingData : Option (List String) → List TrainingSample
  | none => []
  | some lines => load_csv_data lines

/-- The `__init__` pipeline: `load_csv_data()` then `build_patterns()`.
Total — no error is surfaced for any file state. -/
def initService (contents : Option (List String)) : MLService :=
  build_patterns (corpusTrainingData contents)

/-!  Specification-side definitions.  Each is written from the spec's words,
to be compared with the corresponding definition translated from the source. -/

/-- Spec wording of step 2 category scoring: score is the sum over extracted
words of a `+2` exact-membership bonus plus `+0.5` for every pattern entry
that is a substring of the word or contains it. -/
def specCategoryScore (patterns words : List String) : ℚ :=
  (words.map (fun w => (if w ∈ patterns then (2 : ℚ) else 0) +
    ((patterns.filter (fun p => inStr p w || inStr w p)).length : ℚ) * (1 / 2))).sum

/-- Spec wording of step 2 priority scoring: only the `+2` exact-match term. -/
def specPriorityScore (patterns words : List String) : ℚ :=
  (words.map (fun w => if w ∈ patterns then (2 : ℚ) else 0)).sum

/-- Spec wording of word extraction's splitting step: skip whitespace, then
take a maximal run of non-whitespace as the next token. -/
def specTokens : List Char → List (List Char)
  | [] => []
  | c :: t =>
    if isWsChar c then specTokens t
    else (c :: t).takeWhile (fun d => !isWsChar d) ::
      specTokens ((c :: t).dropWhile (fun d => !isWsChar d))
termination_by l => l.length
decreasing_by
  · simp
  · rename_i h
    simp only [List.dropWhile_cons, Bool.not_eq_true]
    simp only [Bool.not_eq_true] at h
    rw [h]
    simp only [if_pos rfl, Bool.not_false, if_true]
    exact Nat.lt_succ_of_le (List.dropWhile_sublist _).length_le

/-- Spec wording of `extract_words`: lower-case, replace every character that
is not an ASCII letter, digit or whitespace by a space, split on whitespace,
keep tokens of length greater than 2, in order, duplicates retained. -/
def specExtractWords (text : String) : List String :=
  let cleaned := (lowerStr text).data.map (fun c => if isAsciiAlnum c || isWsChar c then c else ' ')
  ((specTokens cleaned).filter (fun w => decide (2 < w.length))).map (fun w => (⟨w⟩ : String))

/-- One rule of the spec's step 1: trigger word set paired with the outcome,
which for rules 1 and 2 still inspects the text. -/
abbrev SpecRule := List String × (String → String × String)

/-- The spec's eight step-1 rules, in its stated order. -/
def specRuleList : List SpecRule := [
  (["water", "tap", "leak", "plumbing", "pipe", "drainage"], fun q =>
    if anyIn ["hostel", "room", "mess"] q then ("Hostel/Mess", "urgent")
    else ("Maintenance", "urgent")),
  (["electricity", "power", "light", "bulb", "electrical"], fun q =>
    if anyIn ["hostel", "room"] q then ("Hostel/Mess", "urgent")
    else ("Maintenance", "high")),
  (["food", "meal", "mess", "dining", "kitchen", "quality"], fun _ => ("Hostel/Mess", "high")),
  (["room", "furniture", "bed", "chair", "table"], fun _ => ("Hostel/Mess", "medium")),
  (["login", "portal", "password", "access"], fun _ => ("Technical", "urgent")),
  (["wifi", "internet", "network", "connection"], fun _ => ("Technical", "urgent")),
  (["grade", "marks", "exam", "certificate", "attendance"], fun _ => ("Academic", "high")),
  (["broken", "repair", "fix", "maintenance", "elevator", "lift"], fun _ => ("Maintenance", "urgent"))]

/-- First-match evaluation over an ordered rule list. -/
def firstMatch (q : String) : List SpecRule → Option (String × String)
  | [] => none
  | r :: rest => if anyIn r.1 q then some (r.2 q) else firstMatch q rest

/-- Spec wording of step 1: the first rule whose word set has a member
occurring as a substring of the lower-cased text determines the result. -/
def specRuleBased (q : String) : Option (String × String) :=
  firstMatch q specRuleList

/-!  Generic fold lemmas used to rewrite the scoring loops as sums. -/

theorem foldl_add_fn (g : String → ℚ) :
    ∀ (l : List String) (a : ℚ), l.foldl (fun s w => s + g w) a = a + (l.map g).sum := by
  intro l
  induction l with
  | nil => intro a; simp
  | cons w t ih => intro a; simp [List.foldl_cons, ih, add_assoc]

theorem foldl_half_count (cond : String → Bool) (ps : List String) :
    ∀ a : ℚ, ps.foldl (fun t p => if cond p then t + (1 / 2 : ℚ) else t) a
      = a + ((ps.filter cond).length : ℚ) * (1 / 2) := by
  induction ps with
  | nil => intro a; simp
  | cons p t ih =>
    intro a
    by_cases h : cond p
    · simp only [List.foldl_cons, List.filter_cons, h, if_pos, ih, List.length_cons]
      push_cast
      ring
    · simp only [List.foldl_cons, List.filter_cons, h, if_neg, Bool.false_eq_true,
        if_false, ih]

theorem categoryScore_eq_spec (patterns words : List String) :
    categoryScore patterns words = specCategoryScore patterns words := by
  unfold categoryScore specCategoryScore
  have hbody : (fun (score : ℚ) (word : String) =>
      patterns.foldl (fun t p => if inStr p word || inStr word p then t + (1 / 2 : ℚ) else t)
        (if word ∈ patterns then score + 2 else score))
      = fun (score : ℚ) (word : String) => score + ((if word ∈ patterns then (2 : ℚ) else 0) +
        ((patterns.filter (fun p => inStr p word || inStr word p)).length : ℚ) * (1 / 2)) := by
    funext score word
    rw [foldl_half_count]
    by_cases h : word ∈ patterns
    · simp only [h, if_pos]
      ring
    · simp only [h, if_neg, not_false_iff]
      ring
  rw [hbody, foldl_add_fn]
  simp

theorem priorityScore_eq_spec (patterns words : List String) :
    priorityScore patterns words = specPriorityScore patterns words := by
  unfold priorityScore specPriorityScore
  rw [foldl_add_fn (fun w => if w ∈ patterns then (2 : ℚ) else 0)]
  simp

/-- C5: when no shortcut rule matches, each category's score is the sum over
extracted words of a `+2` exact-match term plus `+0.5` for every pattern entry
related to the word by substring containment in either direction (counted
independently of, and in addition to, the exact-match bonus), while each
priority's score uses only the `+2` exact-match term.  Stated as equality of
the source scoring loops with the spec's sum formulas, together with the fact
that the score maps `classify_user_query` builds are exactly these scores. -/
theorem weighted_scoring_formula :
    (∀ patterns words : List String,
      categoryScore patterns words = specCategoryScore patterns words) ∧
    (∀ patterns words : List String,
      priorityScore patterns words = specPriorityScore patterns words) ∧
    (∀ (svc : MLService) (words : List String),
      baseCategoryScores svc words
        = svc.category_patterns.map (fun cp => (cp.1, specCategoryScore cp.2 words)) ∧
      basePriorityScores svc words
        = svc.priority_patterns.map (fun pp => (pp.1, specPriorityScore pp.2 words))) := by
  refine ⟨categoryScore_eq_spec, priorityScore_eq_spec, fun svc words => ⟨?_, ?_⟩⟩
  · unfold baseCategoryScores
    exact List.map_congr_left fun cp _ => by rw [categoryScore_eq_spec]
  · unfold basePriorityScores
    exact List.map_congr_left fun pp _ => by rw [priorityScore_eq_spec]

/-!  Word extraction: the accumulator splitter of the source agrees with the
spec's take/drop description of splitting on whitespace. -/

theorem splitWsGo_spec : ∀ (l cur : List Char),
    splitWsGo l cur =
      if cur.isEmpty then specTokens l
      else (cur.reverse ++ l.takeWhile (fun d => !isWsChar d)) ::
        specTokens (l.dropWhile (fun d => !isWsChar d)) := by
  intro l
  induction l with
  | nil =>
    intro cur
    by_cases h : cur.isEmpty <;> simp [splitWsGo, specTokens, h]
  | cons c t ih =>
    intro cur
    by_cases hc : isWsChar c
    · by_cases hcur : cur.isEmpty
      · simp [splitWsGo, hc, hcur, ih, specTokens]
      · simp [splitWsGo, hc, hcur, ih, specTokens, List.takeWhile_cons, List.dropWhile_cons]
    · by_cases hcur : cur.isEmpty
      · have hnil : cur = [] := List.isEmpty_iff.mp hcur
        subst hnil
        simp [splitWsGo, hc, ih, specTokens, List.takeWhile_cons, List.dropWhile_cons]
      · simp [splitWsGo, hc, hcur, ih, List.takeWhile_cons, List.dropWhile_cons]

theorem splitWs_eq_specTokens (l : List Char) : splitWs l = specTokens l := by
  rw [splitWs, splitWsGo_spec]
  rfl

/-- C6: word extraction lower-cases the text, replaces every character that is
not an ASCII letter, digit or whitespace with a space, splits on whitespace,
and keeps exactly the tokens of length greater than 2, in order of occurrence
with duplicates retained (the source and spec descriptions define the same
function); it is deterministic by virtue of being a function, and every token
it produces has length greater than 2. -/
theorem word_extraction_contract :
    (∀ text : String, extract_words text = specExtractWords text) ∧
    (∀ text : String, ∀ w ∈ extract_words text, 2 < w.length) := by
  constructor
  · intro text
    simp only [extract_words, specExtractWords, splitWs_eq_specTokens]
  · intro text w hw
    unfold extract_words at hw
    simp only [List.mem_map, List.mem_filter, decide_eq_true_eq] at hw
    obtain ⟨wl, ⟨_, hlen⟩, rfl⟩ := hw
    exact hlen

/-!  Step 1: the rule shortcut stage. -/

theorem rule_based_eq_spec (q : String) (w : List String) :
    rule_based_classification q w = specRuleBased q := by
  simp only [rule_based_classification, specRuleBased, specRuleList, firstMatch]
  split_ifs <;> rfl

/-- A rule hit always produces one of the five concrete (category, priority)
pairs appearing in the eight rules. -/
theorem rule_based_mem {q : String} {w : List String} {cp : String × String}
    (h : rule_based_classification q w = some cp) :
    cp.1 ∈ ["Technical", "Academic", "Hostel/Mess", "Maintenance"] ∧
    cp.2 ∈ ["low", "medium", "high", "urgent"] := by
  unfold rule_based_classification at h
  repeat' split at h
  any_goals exact Option.noConfusion h
  all_goals injection h with h2
  all_goals subst h2
  all_goals exact ⟨by decide, by decide⟩

/-- Witness for C6: extraction agrees with the spec description on a concrete
input, and a concretely extracted token has length greater than 2. -/
theorem word_extraction_contract_witness :
    extract_words "a!!b ccc  dd eee9 XYZ?!" = specExtractWords "a!!b ccc  dd eee9 XYZ?!" ∧
    2 < ("ccc" : String).length :=
  ⟨word_extraction_contract.1 "a!!b ccc  dd eee9 XYZ?!",
   word_extraction_contract.2 "a!!b ccc  dd eee9 XYZ?!" "ccc" (by decide)⟩

/-!  Properties of the Python `max` scan. -/

theorem argmaxGo_cases : ∀ (l : ScoreMap) (best : String × ℚ),
    argmaxGo best l = best ∨ argmaxGo best l ∈ l := by
  intro l
  induction l with
  | nil => intro best; left; rfl
  | cons kv t ih =>
    intro best
    simp only [argmaxGo]
    by_cases h : kv.2 > best.2
    · rw [if_pos h]
      rcases ih kv with h1 | h1
      · right; rw [h1]; exact List.mem_cons_self kv t
      · right; exact List.mem_cons_of_mem _ h1
    · rw [if_neg h]
      rcases ih best with h1 | h1
      · left; exact h1
      · right; exact List.mem_cons_of_mem _ h1

theorem argmaxGo_le : ∀ (l : ScoreMap) (best : String × ℚ),
    best.2 ≤ (argmaxGo best l).2 := by
  intro l
  induction l with
  | nil => intro best; exact le_refl _
  | cons kv t ih =>
    intro best
    simp only [argmaxGo]
    by_cases h : kv.2 > best.2
    · rw [if_pos h]; exact le_trans (le_of_lt h) (ih kv)
    · rw [if_neg h]; exact ih best

theorem argmaxGo_ge : ∀ (l : ScoreMap) (best : String × ℚ),
    ∀ kv ∈ l, kv.2 ≤ (argmaxGo best l).2 := by
  intro l
  induction l with
  | nil => intro best kv h; exact absurd h (List.not_mem_nil kv)
  | cons hd t ih =>
    intro best kv hkv
    simp only [argmaxGo]
    rcases List.mem_cons.mp hkv with rfl | hmem
    · refine le_trans ?_ (argmaxGo_le t _)
      by_cases h : kv.2 > best.2
      · rw [if_pos h]
      · rw [if_neg h]; exact le_of_not_lt h
    · exact ih _ kv hmem

theorem argmaxGo_of_max : ∀ (l : ScoreMap) (best : String × ℚ),
    (∀ kv ∈ l, kv.2 ≤ best.2) → argmaxGo best l = best := by
  intro l
  induction l with
  | nil => intro best _; rfl
  | cons hd t ih =>
    intro best h
    simp only [argmaxGo]
    rw [if_neg (not_lt_of_le (h hd (List.mem_cons_self hd t)))]
    exact ih best fun kv hkv => h kv (List.mem_cons_of_mem _ hkv)

theorem pyMax_mem {m : ScoreMap} {kv : String × ℚ} (h : pyMax m = some kv) : kv ∈ m := by
  cases m with
  | nil => exact Option.noConfusion h
  | cons hd t =>
    simp only [pyMax] at h
    injection h with h2
    rcases argmaxGo_cases t hd with h1 | h1
    · rw [← h2, h1]; exact List.mem_cons_self hd t
    · rw [← h2]; exact List.mem_cons_of_mem _ h1

theorem pyMax_ge {m : ScoreMap} {kv : String × ℚ} (h : pyMax m = some kv) :
    ∀ x ∈ m, x.2 ≤ kv.2 := by
  cases m with
  | nil => exact Option.noConfusion h
  | cons hd t =>
    simp only [pyMax] at h
    injection h with h2
    intro x hx
    rw [← h2]
    rcases List.mem_cons.mp hx with rfl | hmem
    · exact argmaxGo_le t x
    · exact argmaxGo_ge t hd x hmem

theorem pyMax_of_nonempty {m : ScoreMap} (h : m ≠ []) : ∃ kv, pyMax m = some kv := by
  cases m with
  | nil => exact absurd rfl h
  | cons hd t => exact ⟨argmaxGo hd t, rfl⟩

theorem pyMaxKey_mem {m : ScoreMap} {k : String} (h : pyMaxKey m = some k) :
    k ∈ scoreKeys m := by
  unfold pyMaxKey at h
  cases hm : pyMax m with
  | none => rw [hm] at h; exact Option.noConfusion h
  | some kv =>
    rw [hm] at h
    injection h with h2
    subst h2
    exact List.mem_map_of_mem (fun kv => kv.1) (pyMax_mem hm)

theorem pyMax_head_of_zero {m : ScoreMap} {hd : String × ℚ} {t : ScoreMap}
    (he : m = hd :: t) (h : ∀ kv ∈ m, kv.2 = 0) : pyMax m = some hd := by
  subst he
  simp only [pyMax]
  rw [argmaxGo_of_max]
  intro kv hkv
  rw [h kv (List.mem_cons_of_mem _ hkv), h hd (List.mem_cons_self hd t)]

/-!  Key preservation through the context-boost stages. -/

theorem scoreKeys_map_base (l : List (String × List String)) (f : String × List String → ℚ) :
    scoreKeys (l.map (fun cp => (cp.1, f cp))) = l.map (fun cp => cp.1) := by
  simp only [scoreKeys, List.map_map]
  rfl

theorem bumpScore_keys {m : ScoreMap} {k : String} (v : ℚ) (h : k ∈ scoreKeys m) :
    scoreKeys (bumpScore m k v) = scoreKeys m := by
  unfold bumpScore setScore
  have hany : m.any (fun kv => kv.1 == k) = true := by
    simp only [scoreKeys, List.mem_map] at h
    rcases h with ⟨kv, hkv, rfl⟩
    exact List.any_eq_true.mpr ⟨kv, hkv, by simp⟩
  rw [if_pos hany]
  simp only [scoreKeys, List.map_map]
  apply List.map_congr_left
  intro kv _
  by_cases hkv : kv.1 == k
  · simp only [Function.comp_apply, hkv, if_pos]
    exact (beq_iff_eq.mp hkv).symm
  · simp only [Function.comp_apply, hkv, if_neg, Bool.false_eq_true]
    simp

theorem condBump_keys {m : ScoreMap} {k : String} (c : Bool) (v : ℚ) (h : k ∈ scoreKeys m) :
    scoreKeys (condBump c m k v) = scoreKeys m := by
  unfold condBump
  split
  · exact bumpScore_keys v h
  · rfl

theorem applyBoosts_keys : ∀ (bs : List (Bool × String × ℚ)) (m : ScoreMap),
    (∀ b ∈ bs, b.2.1 ∈ scoreKeys m) → scoreKeys (applyBoosts bs m) = scoreKeys m := by
  intro bs
  induction bs with
  | nil => intro m _; rfl
  | cons b t ih =>
    intro m h
    have hb : b.2.1 ∈ scoreKeys m := h b (List.mem_cons_self b t)
    have h1 : scoreKeys (condBump b.1 m b.2.1 b.2.2) = scoreKeys m :=
      condBump_keys b.1 b.2.2 hb
    have h2 : applyBoosts (b :: t) m = applyBoosts t (condBump b.1 m b.2.1 b.2.2) := rfl
    rw [h2, ih _ (fun x hx => h1 ▸ h x (List.mem_cons_of_mem _ hx)), h1]

/-- With the default tables, the adjusted category score map always has
exactly the four category labels as keys, in declaration order: the four
context boosts all target labels already present. -/
theorem default_adjCat_keys (query : String) :
    scoreKeys (adjustedCategoryScores setup_default_patterns query)
      = ["Technical", "Academic", "Hostel/Mess", "Maintenance"] := by
  unfold adjustedCategoryScores apply_context_rules
  rw [applyBoosts_keys]
  · unfold baseCategoryScores
    rw [scoreKeys_map_base]
    rfl
  · intro b hb
    unfold baseCategoryScores
    rw [scoreKeys_map_base]
    fin_cases hb <;> simp [setup_default_patterns]

/-- With the default tables, the adjusted priority score map always has
exactly the four priority labels as keys, in declaration order. -/
theorem default_adjPrio_keys (query : String) :
    scoreKeys (adjustedPriorityScores setup_default_patterns query)
      = ["urgent", "high", "medium", "low"] := by
  unfold adjustedPriorityScores apply_priority_context
  rw [applyBoosts_keys]
  · unfold basePriorityScores
    rw [scoreKeys_map_base]
    rfl
  · intro b hb
    unfold basePriorityScores
    rw [scoreKeys_map_base]
    fin_cases hb <;> simp [setup_default_patterns]

/-- With the default tables, the selected category is one of the four fixed
labels. -/
theorem predictedCategory_mem (query : String) :
    predictedCategory setup_default_patterns query
      ∈ ["Technical", "Academic", "Hostel/Mess", "Maintenance"] := by
  unfold predictedCategory
  cases hm : pyMaxKey (adjustedCategoryScores setup_default_patterns query) with
  | none => decide
  | some c =>
    have := pyMaxKey_mem hm
    rw [default_adjCat_keys] at this
    simpa using this

/-- C1: for every input string — empty, punctuation-only, whitespace-only or
arbitrary — `classify_user_query` on the deployed (default-table) service
returns a defined pair whose category is one of Technical, Academic,
Hostel/Mess, Maintenance and whose priority is one of low, medium, high,
urgent; it never produces an empty or out-of-domain label and never reaches
the one embedded error state (`none`). -/
theorem classify_total_in_domain (query : String) :
    ∃ cp : String × String,
      classify_user_query setup_default_patterns query = some cp ∧
      cp.1 ∈ ["Technical", "Academic", "Hostel/Mess", "Maintenance"] ∧
      cp.2 ∈ ["low", "medium", "high", "urgent"] := by
  unfold classify_user_query
  cases hr : rule_based_classification (lowerStr query) (extract_words query) with
  | some cp => exact ⟨cp, rfl, rule_based_mem hr⟩
  | none =>
    have hpk := default_adjPrio_keys query
    have hne : adjustedPriorityScores setup_default_patterns query ≠ [] := by
      intro h
      rw [h] at hpk
      exact List.noConfusion hpk
    obtain ⟨kv, hkv⟩ := pyMax_of_nonempty hne
    simp only [hkv]
    have hcat := predictedCategory_mem query
    by_cases h0 : kv.2 > 0
    · rw [if_pos h0]
      refine ⟨_, rfl, hcat, ?_⟩
      have hm : kv.1 ∈ scoreKeys (adjustedPriorityScores setup_default_patterns query) :=
        List.mem_map_of_mem (fun x => x.1) (pyMax_mem hkv)
      rw [hpk] at hm
      simp only [List.mem_cons, List.mem_singleton] at hm ⊢
      tauto
    · rw [if_neg h0]
      exact ⟨_, rfl, hcat, by simp⟩

/-- Witness for C1: the total-and-in-domain property at a punctuation-only
input. -/
theorem classify_total_in_domain_witness :
    ∃ cp : String × String,
      classify_user_query setup_default_patterns "?!...,," = some cp ∧
      cp.1 ∈ ["Technical", "Academic", "Hostel/Mess", "Maintenance"] ∧
      cp.2 ∈ ["low", "medium", "high", "urgent"] :=
  classify_total_in_domain "?!...,,"

/-- C2: the eight shortcut rules are evaluated in the spec's fixed order as
substring checks on the lower-cased text (the source's rule cascade equals
the spec's ordered first-match rule list); a rule hit is returned as is, for
any pattern tables, so the scoring and context stages are skipped entirely;
and the rule-1 example classifies as claimed. -/
theorem rule_shortcut_precedence :
    (∀ (svc : MLService) (query : String) (cp : String × String),
      rule_based_classification (lowerStr query) (extract_words query) = some cp →
      classify_user_query svc query = some cp) ∧
    (∀ (q : String) (w : List String), rule_based_classification q w = specRuleBased q) ∧
    classify_user_query setup_default_patterns "My hostel tap is leaking"
      = some ("Hostel/Mess", "urgent") := by
  refine ⟨?_, rule_based_eq_spec, by decide⟩
  intro svc query cp h
  unfold classify_user_query
  rw [h]

/-- Witness for C2: its shortcut conjunct applied at the rule-1 example. -/
theorem rule_shortcut_precedence_witness :
    classify_user_query setup_default_patterns "My hostel tap is leaking"
      = some ("Hostel/Mess", "urgent") :=
  rule_shortcut_precedence.1 setup_default_patterns "My hostel tap is leaking"
    ("Hostel/Mess", "urgent") (by decide)

/-- C3 counterexample: the claimed result `(Academic, urgent)` is not what the
code produces for this input — rule 7 of the shortcut stage (grade / marks /
exam / certificate / attendance) fires first and returns priority `high`,
short-circuiting every priority boost. -/
theorem context_boost_claim_false :
    classify_user_query setup_default_patterns
      "I need help urgently, my exam grade certificate is missing"
      ≠ some ("Academic", "urgent") := by
  decide

/-- C3 amended: that input is classified as category `Academic` with priority
`high` (the shortcut rule's fixed pair), not `urgent`. -/
theorem context_boost_actual :
    classify_user_query setup_default_patterns
      "I need help urgently, my exam grade certificate is missing"
      = some ("Academic", "high") := by
  decide

/-- C4: on the scoring path (no shortcut rule matched) of the default-table
service, the returned category attains the maximum of the adjusted category
scores, with `Technical` the result whenever all adjusted scores are zero;
the returned priority is the first maximal label of the adjusted priority
scores when that maximum is strictly positive and `medium` otherwise; and
`classify_user_query` of the empty string is `(Technical, medium)`. -/
theorem selection_and_defaults (query : String)
    (h : rule_based_classification (lowerStr query) (extract_words query) = none) :
    (∃ v : ℚ, (predictedCategory setup_default_patterns query, v)
        ∈ adjustedCategoryScores setup_default_patterns query ∧
      ∀ kv ∈ adjustedCategoryScores setup_default_patterns query, kv.2 ≤ v) ∧
    ((∀ kv ∈ adjustedCategoryScores setup_default_patterns query, kv.2 = 0) →
      predictedCategory setup_default_patterns query = "Technical") ∧
    (∃ kv, pyMax (adjustedPriorityScores setup_default_patterns query) = some kv ∧
      kv ∈ adjustedPriorityScores setup_default_patterns query ∧
      (∀ x ∈ adjustedPriorityScores setup_default_patterns query, x.2 ≤ kv.2) ∧
      classify_user_query setup_default_patterns query =
        some (predictedCategory setup_default_patterns query,
          if kv.2 > 0 then kv.1 else "medium")) ∧
    classify_user_query setup_default_patterns "" = some ("Technical", "medium") := by
  have hck := default_adjCat_keys query
  have hcne : adjustedCategoryScores setup_default_patterns query ≠ [] := by
    intro he
    rw [he] at hck
    exact List.noConfusion hck
  obtain ⟨ckv, hckv⟩ := pyMax_of_nonempty hcne
  have hcatkey : predictedCategory setup_default_patterns query = ckv.1 := by
    unfold predictedCategory pyMaxKey
    rw [hckv]
    rfl
  refine ⟨?_, ?_, ?_, by decide⟩
  · refine ⟨ckv.2, ?_, pyMax_ge hckv⟩
    rw [hcatkey]
    exact pyMax_mem hckv
  · intro hzero
    obtain ⟨hd, t, he⟩ : ∃ hd t, adjustedCategoryScores setup_default_patterns query = hd :: t := by
      cases hm : adjustedCategoryScores setup_default_patterns query with
      | nil => exact absurd hm hcne
      | cons hd t => exact ⟨hd, t, rfl⟩
    have hhd : pyMax (adjustedCategoryScores setup_default_patterns query) = some hd :=
      pyMax_head_of_zero he hzero
    have h1 : hd.1 = "Technical" := by
      have : scoreKeys (adjustedCategoryScores setup_default_patterns query)
          = hd.1 :: scoreKeys t := by rw [he]; rfl
      rw [hck] at this
      exact (List.cons.injEq _ _ _ _ ▸ this).1.symm
    rw [hckv] at hhd
    injection hhd with h2
    rw [hcatkey, h2, h1]
  · have hpk := default_adjPrio_keys query
    have hne : adjustedPriorityScores setup_default_patterns query ≠ [] := by
      intro he
      rw [he] at hpk
      exact List.noConfusion hpk
    obtain ⟨kv, hkv⟩ := pyMax_of_nonempty hne
    refine ⟨kv, hkv, pyMax_mem hkv, pyMax_ge hkv, ?_⟩
    unfold classify_user_query
    rw [h]
    simp only [hkv]
    by_cases h0 : kv.2 > 0
    · rw [if_pos h0, if_pos h0]
    · rw [if_neg h0, if_neg h0]

/-- Witness for C4: applied at the empty string, whose rule stage misses. -/
theorem selection_and_defaults_witness :
    classify_user_query setup_default_patterns "" = some ("Technical", "medium") :=
  (selection_and_defaults "" (by decide)).2.2.2

/-!  Pattern builder: caps, the count-greater-than-one filter, and descending
order. -/

instance : IsTotal (String × Nat) (fun a b => b.2 ≤ a.2) :=
  ⟨fun a b => le_total b.2 a.2⟩

instance : IsTrans (String × Nat) (fun a b => b.2 ≤ a.2) :=
  ⟨fun _ _ _ hab hbc => le_trans hbc hab⟩

theorem topWords_length_le (n : Nat) (counts : List (String × Nat)) :
    (topWords n counts).length ≤ n := by
  unfold topWords
  rw [List.length_map]
  exact le_trans (List.length_filter_le _ _) (List.length_take_le _ _)

theorem topWords_count_gt_one {n : Nat} {counts : List (String × Nat)} {w : String}
    (h : w ∈ topWords n counts) : ∃ c, 1 < c ∧ (w, c) ∈ counts := by
  unfold topWords at h
  obtain ⟨kv, hkv, rfl⟩ := List.mem_map.mp h
  have h1 := List.mem_filter.mp hkv
  have h2 : kv ∈ sortDesc counts :=
    ((List.take_sublist _ _).mem h1.1)
  have h3 : kv ∈ counts := (List.perm_insertionSort _ counts).mem_iff.mp h2
  exact ⟨kv.2, by simpa using h1.2, h3⟩

theorem topPairs_sorted (n : Nat) (counts : List (String × Nat)) :
    List.Sorted (fun a b : String × Nat => b.2 ≤ a.2)
      (((sortDesc counts).take n).filter (fun kv => decide (1 < kv.2))) := by
  have hs : List.Sorted (fun a b : String × Nat => b.2 ≤ a.2) (sortDesc counts) :=
    List.sorted_insertionSort _ counts
  exact List.Pairwise.sublist ((List.filter_sublist _).trans (List.take_sublist _ _)) hs

/-- C7: for every non-empty training-sample sequence, each category pattern
list is `topWords 50` of that label's frequency table — hence never longer
than 50, containing only words counted more than once, and listed in
descending-count order (stable for ties) — and each priority pattern list is
likewise `topWords 30`, never longer than 30. -/
theorem pattern_table_caps (td : List TrainingSample) (h : td ≠ []) :
    (∀ kv ∈ (build_patterns td).category_patterns,
      ∃ counts, (kv.1, counts) ∈ (countTables td).1 ∧ kv.2 = topWords 50 counts ∧
        kv.2.length ≤ 50 ∧ (∀ w ∈ kv.2, ∃ c, 1 < c ∧ (w, c) ∈ counts) ∧
        List.Sorted (fun a b : String × Nat => b.2 ≤ a.2)
          (((sortDesc counts).take 50).filter (fun x => decide (1 < x.2)))) ∧
    (∀ kv ∈ (build_patterns td).priority_patterns,
      ∃ counts, (kv.1, counts) ∈ (countTables td).2 ∧ kv.2 = topWords 30 counts ∧
        kv.2.length ≤ 30 ∧ (∀ w ∈ kv.2, ∃ c, 1 < c ∧ (w, c) ∈ counts) ∧
        List.Sorted (fun a b : String × Nat => b.2 ≤ a.2)
          (((sortDesc counts).take 30).filter (fun x => decide (1 < x.2)))) := by
  have hne : td.isEmpty = false := by
    cases td with
    | nil => exact absurd rfl h
    | cons a t => rfl
  constructor
  · intro kv hkv
    unfold build_patterns at hkv
    rw [hne] at hkv
    simp only [Bool.false_eq_true, if_false] at hkv
    obtain ⟨entry, hentry, he⟩ := List.mem_map.mp hkv
    refine ⟨entry.2, ?_, ?_, ?_, ?_, topPairs_sorted 50 entry.2⟩
    · rw [← he]
      exact hentry
    · rw [← he]
    · rw [← he]
      exact topWords_length_le 50 entry.2
    · intro w hw
      rw [← he] at hw
      exact topWords_count_gt_one hw
  · intro kv hkv
    unfold build_patterns at hkv
    rw [hne] at hkv
    simp only [Bool.false_eq_true, if_false] at hkv
    obtain ⟨entry, hentry, he⟩ := List.mem_map.mp hkv
    refine ⟨entry.2, ?_, ?_, ?_, ?_, topPairs_sorted 30 entry.2⟩
    · rw [← he]
      exact hentry
    · rw [← he]
    · rw [← he]
      exact topWords_length_le 30 entry.2
    · intro w hw
      rw [← he] at hw
      exact topWords_count_gt_one hw

/-- Witness for C7: the cap holds at the concrete table entry built from a
one-sample corpus (whose single category list is `["abc"]`). -/
theorem pattern_table_caps_witness :
    (([⟨"abc abc xyz", "Cat", "pri"⟩] : List TrainingSample) ≠ []) ∧
    (("Cat", ["abc"]) : String × List String).2.length ≤ 50 := by
  refine ⟨by decide, ?_⟩
  obtain ⟨_, _, _, hlen, _⟩ :=
    (pattern_table_caps [⟨"abc abc xyz", "Cat", "pri"⟩] (by decide)).1
      ("Cat", ["abc"]) (by decide)
  exact hlen

/-!  Corpus loading. -/

theorem load_loop_eq : ∀ (ls : List String) (acc : List TrainingSample),
    ls.foldl (fun acc line =>
        match parseLine line with
        | some s => acc ++ [s]
        | none => acc) acc
      = acc ++ ls.filterMap parseLine := by
  intro ls
  induction ls with
  | nil => intro acc; simp
  | cons l t ih =>
    intro acc
    cases hp : parseLine l <;>
      simp [List.foldl_cons, List.filterMap_cons, hp, ih]

/-- C8: the loader always skips the first (header) line; a line that does not
split into at least three comma-separated parts contributes nothing while
later lines are still loaded; and whenever the corpus is missing/unreadable
(`none`) or yields no samples, the service is initialised with exactly the
literal default pattern tables — the pipeline is total, surfacing no error. -/
theorem corpus_loading_recovery :
    (∀ (hdr : String) (rest : List String),
      load_csv_data (hdr :: rest) = rest.filterMap parseLine) ∧
    (∀ (pre : List String) (bad : String) (post : List String), parseLine bad = none →
      (pre ++ bad :: post).filterMap parseLine = (pre ++ post).filterMap parseLine) ∧
    (∀ contents : Option (List String), corpusTrainingData contents = [] →
      initService contents = setup_default_patterns) ∧
    initService none = setup_default_patterns := by
  refine ⟨?_, ?_, ?_, rfl⟩
  · intro hdr rest
    unfold load_csv_data
    rw [List.drop_one, List.tail_cons, load_loop_eq]
    rfl
  · intro pre bad post hbad
    induction pre with
    | nil => simp [List.filterMap_cons, hbad]
    | cons p t ih => simp only [List.cons_append, List.filterMap_cons, ih]
  · intro contents hc
    unfold initService
    rw [hc]
    rfl

/-- Witness for C8: a malformed two-field line is skipped with the rest still
loaded, and a corpus whose lines all fail to parse yields the default
tables. -/
theorem corpus_loading_recovery_witness :
    (["a,b,c"] ++ "x,y" :: ["d,e,f"]).filterMap parseLine
      = (["a,b,c"] ++ ["d,e,f"]).filterMap parseLine ∧
    initService (some ["query,category,priority", "x,y"]) = setup_default_patterns :=
  ⟨corpus_loading_recovery.2.1 ["a,b,c"] "x,y" ["d,e,f"] (by decide),
   corpus_loading_recovery.2.2.1 (some ["query,category,priority", "x,y"]) (by decide)⟩

/-- C9: the context-boost stage writes through `d.get(label, 0)` and can
therefore introduce labels that are not keys of the built pattern tables: for
the corpus below, the tables' only keys are `Other` and `weird`, yet the
classifier returns `(Hostel/Mess, urgent)` on the scoring path. -/
theorem context_boost_fresh_labels :
    "Hostel/Mess" ∉ (initService
        (some ["query,category,priority", "xyz xyz,Other,weird"])).category_patterns.map
        (fun kv => kv.1) ∧
    "urgent" ∉ (initService
        (some ["query,category,priority", "xyz xyz,Other,weird"])).priority_patterns.map
        (fun kv => kv.1) ∧
    classify_user_query (initService (some ["query,category,priority", "xyz xyz,Other,weird"]))
        "urgent hostel issue" = some ("Hostel/Mess", "urgent") :=
  ⟨by decide, by decide, by with_unfolding_all decide⟩

/-- C10: a quote-delimited query field containing a comma is torn apart by the
two-comma split: the resulting sample's `category` is the fragment ` broken`
of the query text (a substring of the record's real query field) rather than
the record's category `Technical`, and its `priority` swallows the rest of
the line. -/
theorem quoted_comma_misparse :
    load_csv_data ["query,category,priority", "\"wifi, broken\",Technical,high"]
      = [⟨"wifi", " broken", "Technical,high"⟩] ∧
    (" broken" : String) ≠ "Technical" ∧
    inStr " broken" "wifi, broken" = true :=
  ⟨by decide, by decide, by decide⟩

end CMS
